import Mathlib

/-!
Verification development for the Mindsight youth mental wellness app
(single source file `app.py`).

The development shallow-embeds the pure logic of the app: the crisis
keyword detector (`is_crisis`), the chat tab gate, the mood store
(`save_mood` / `load_moods` over a flat file), the streak calculator
(`calculate_streak`), the wellness scorer (`wellness_score`), and the
CSV export of the Insights tab.  Machine-level details (pandas frames,
the Streamlit widgets, the hosted language model) are modelled as
explicit data: a data frame is a list of rows, the file on disk is an
optional list of rows, and the language model is an arbitrary function
passed as a parameter.
-/

/-! ## Crisis detector (`is_crisis`, app.py lines 81-85)

Python lowercases the input with `str.lower()` and tests each keyword
with the substring operator `in`.  We model text as `Option String`
(`none` is Python `None`), lowercase via `Char.toLower` on the
character list (matching `str.lower` on the ASCII texts involved), and
model `in` with an executable substring test `hasSubstr`.
-/

/-- The apostrophe character, built by code point so that keyword string
literals stay plain ASCII without quote characters. -/
def apos : Char := Char.ofNat 39

/-- The hardcoded crisis phrase list `CRISIS_KEYWORDS` (app.py lines 23-26). -/
def CRISIS_KEYWORDS : List String :=
  ["suicide", "kill myself", "end my life", "i want to die", "give up", "self harm",
   "hurt myself", "i cant go on", "i can" ++ apos.toString ++ "t go on",
   "i" ++ apos.toString ++ "m going to kill myself"]

/-- Character list of a string lowered characterwise, modelling
`text.lower()` in `is_crisis`. -/
def lowerData (s : String) : List Char := s.data.map Char.toLower

/-- Boolean test that `needle` starts `hay`, helper for the Python
substring operator. -/
def startsWithChars : List Char → List Char → Bool
  | [], _ => true
  | _ :: _, [] => false
  | a :: as, b :: bs => a == b && startsWithChars as bs

/-- Boolean substring test, modelling the Python operator `kw in t`. -/
def hasSubstr (needle : List Char) : List Char → Bool
  | [] => startsWithChars needle []
  | c :: rest => startsWithChars needle (c :: rest) || hasSubstr needle rest

/-- The crisis detector `is_crisis(text)` (app.py lines 81-85): `None`
or empty text is falsy and yields `false`; otherwise any keyword that is
a substring of the lowercased text yields `true`. -/
def is_crisis : Option String → Bool
  | none => false
  | some s =>
    if s = "" then false
    else CRISIS_KEYWORDS.any fun kw => hasSubstr kw.data (lowerData s)

/-! ## Chat tab gate (app.py lines 161-172)

On Send, the handler first evaluates `is_crisis(user_text)`; on `true`
it shows the crisis error plus the India helplines and never calls
`generate_response`; otherwise it calls `generate_response` and shows
the reply.  `generate_response` itself catches every exception and
returns a string, so every behaviour of the collaborator (including
failures) is a total function `String → String`, which we quantify
over.  The second component of the result records whether
`generate_response` was invoked.
-/

/-- The India helpline table `HELPLINES["India"]` (app.py lines 29-33). -/
def HELPLINES_India : List (String × String) :=
  [("AASRA", "91-98204 66726"),
   ("Vandrevala Foundation Helpline", "1860 266 2345 or 1800 233 3330"),
   ("Snehi", "91-9582208181")]

/-- What the chat tab renders after Send. -/
inductive ChatOutput where
  | crisisAlert : List (String × String) → ChatOutput
  | aiReply : String → ChatOutput
deriving DecidableEq

/-- The Send branch of the chat tab (app.py lines 164-172), taking the
language model `generate` as a parameter; the Boolean records whether
`generate` was invoked. -/
def chat_handler (generate : String → String) (user_text : String) :
    ChatOutput × Bool :=
  if is_crisis (some user_text) then
    (ChatOutput.crisisAlert HELPLINES_India, false)
  else
    (ChatOutput.aiReply (generate user_text), true)

/-! ## Mood store (`save_mood` / `load_moods`, app.py lines 87-104)

The store is the flat file `mood_log.csv`.  We model the file contents
as `Option (List MoodEntry)` (`none` when `os.path.exists` is false),
abstracting the CSV serialisation that `pandas` performs for each read
and write.  A `Clock` packages the two values Python samples at write
time, `datetime.now().strftime(...)` and `date.today().isoformat()`.
-/

/-- One persisted row of `mood_log.csv`, in its column order
`date_time, date, mood, note` (app.py lines 88-93). -/
structure MoodEntry where
  date_time : String
  date : String
  mood : String
  note : String
deriving DecidableEq

/-- The two time values sampled inside `save_mood`:
`datetime.now().strftime("%Y-%m-%d %H:%M:%S")` and
`date.today().isoformat()`. -/
structure Clock where
  date_time : String
  date : String
deriving DecidableEq

/-- The entry dictionary built at the top of `save_mood`
(app.py lines 88-93). -/
def mkEntry (now : Clock) (mood note : String) : MoodEntry :=
  ⟨now.date_time, now.date, mood, note⟩

/-- `save_mood(mood, note)` (app.py lines 87-99) as a transformer of the
file state: an existing frame is extended by the new row
(`pd.concat(..., ignore_index=True)`), a missing file becomes a
one-row frame, and the result is written back with `to_csv`.  The
second component is the value the Python function returns to its
caller: `save_mood` has no `return` statement, so it returns `None`. -/
def save_mood (now : Clock) (mood note : String) :
    Option (List MoodEntry) → Option (List MoodEntry) × Option MoodEntry
  | some df => (some (df ++ [mkEntry now mood note]), none)
  | none => (some [mkEntry now mood note], none)

/-- `load_moods()` (app.py lines 101-104) on an uncorrupted file state:
read the frame when the file exists, otherwise an empty frame. -/
def load_moods : Option (List MoodEntry) → List MoodEntry
  | some df => df
  | none => []

/-- A sequence of `save_mood` calls run left to right against the file
state, each with its sampled clock, mood and note. -/
def runAppends : List (Clock × String × String) →
    Option (List MoodEntry) → Option (List MoodEntry)
  | [], store => store
  | (c, m, n) :: rest, store => runAppends rest (save_mood c m n store).1

/-! ## File states including corruption (for the load error analysis)

`load_moods` guards only on `os.path.exists`; the `pd.read_csv` call
itself is unguarded.  To reason about malformed files we refine the
file state with a `corrupt` constructor and model `pd.read_csv` as a
fallible collaborator.
-/

/-- The on-disk states of `mood_log.csv`: absent, present and parseable
with the given rows, or present but malformed. -/
inductive FileState where
  | absent
  | wellFormed (rows : List MoodEntry)
  | corrupt
deriving DecidableEq

/-- Models `pd.read_csv(MOOD_FILE)` applied to an existing file:
well-formed content parses to its rows in file order; malformed content
(for example a zero-byte file) raises (`EmptyDataError` /
`ParserError`), modelled as `Except.error`. -/
def read_csv : FileState → Except String (List MoodEntry)
  | .wellFormed rows => .ok rows
  | _ => .error "ParserError"

/-- `load_moods()` (app.py lines 101-104) over the refined file state:
when `os.path.exists` is false it returns the empty frame without
touching `read_csv`; when the file exists it returns whatever
`pd.read_csv` does, errors included, since the call is unguarded. -/
def load_moods_fs : FileState → Except String (List MoodEntry)
  | .absent => .ok []
  | .wellFormed rows => read_csv (.wellFormed rows)
  | .corrupt => read_csv .corrupt

/-! ## Streak calculator (`calculate_streak`, app.py lines 106-120)

The function reads the store, parses the `date` column to calendar
dates, forms the set of distinct dates sorted descending, and walks it
with `enumerate`, counting while the i-th date equals `today -
timedelta(days=i)` and breaking at the first mismatch.  Calendar dates
are modelled as integer day numbers, so `today - timedelta(days=i)` is
integer subtraction; `days` is the parsed `date` column of
`load_moods()` (one value per entry, duplicates included) and the
`df.empty` guard is `days = []`.
-/

/-- Insert into a descending-sorted list of day numbers, keeping it
descending. -/
def insertDescInt (a : Int) : List Int → List Int
  | [] => [a]
  | x :: xs => if x ≤ a then a :: x :: xs else x :: insertDescInt a xs

/-- Models `sorted(set, reverse=True)`: sort day numbers descending. -/
def sortDescInt : List Int → List Int
  | [] => []
  | x :: xs => insertDescInt x (sortDescInt xs)

/-- The `for i, d in enumerate(unique_dates)` loop of
`calculate_streak`: count while `d == today - timedelta(days=i)`,
break at the first mismatch. -/
def streakLoop (today : Int) : Nat → List Int → Nat
  | _, [] => 0
  | i, d :: rest =>
    if d = today - (i : Int) then streakLoop today (i + 1) rest + 1 else 0

/-- `calculate_streak()` (app.py lines 106-120) over the parsed date
column `days` of the loaded store and the current date `today`. -/
def calculate_streak (days : List Int) (today : Int) : Nat :=
  if days = [] then 0
  else streakLoop today 0 (sortDescInt days.dedup)

/-! ## Wellness scorer (`wellness_score`, app.py lines 142-147)

`df["mood"].map(score_map)` maps each mood label through the score
dictionary, giving NaN for labels outside it, and `.sum()` ignores the
NaN cells; this is modelled by an `Option Int` lookup read with
`getD 0`.  The input is the `mood` column of the frame, and the
`df.empty` guard is the empty list.
-/

/-- The dictionary `score_map` of `wellness_score` (app.py line 145);
`none` models a label absent from the dictionary (NaN after `.map`). -/
def score_map (m : String) : Option Int :=
  if m = "😃 Happy" then some 2
  else if m = "😢 Sad" then some (-1)
  else if m = "😰 Anxious" then some (-1)
  else if m = "😡 Angry" then some (-2)
  else if m = "😓 Stressed" then some (-1)
  else none

/-- The contribution of one mood label to the summed score: its mapped
delta, or 0 for a label the dictionary does not know (NaN is skipped
by `.sum()`). -/
def moodDelta (m : String) : Int := (score_map m).getD 0

/-- `wellness_score(df)` (app.py lines 142-147) over the mood column:
50 for an empty frame, otherwise the delta sum plus the baseline 50,
clamped to [0, 100] by `max(0, min(100, score))`. -/
def wellness_score (moods : List String) : Int :=
  if moods = [] then 50
  else max 0 (min 100 ((moods.map moodDelta).sum + 50))

/-! ## Insights tab export (app.py lines 215-219)

`hist = df.sort_values("date_time", ascending=False)` sorts the loaded
frame descending by the `date_time` string column; `hist.to_csv(index=False)`
serialises it (header row, then one line per row, comma-separated,
trailing newline); `st.download_button` offers the bytes under the
name `mood_log.csv`.  String comparison is lexicographic on the
character sequence, modelled by `charsLe`; parsing an exported stream
back (`pd.read_csv` on it) is modelled by `parse_csv` for frames whose
fields contain no comma, quote or newline, which holds for every frame
the app writes (fixed timestamp formats and the five mood labels).
-/

/-- Lexicographic comparison of character lists by code point; this is
string comparison on the `date_time` column. -/
def charsLe : List Char → List Char → Bool
  | [], _ => true
  | _ :: _, [] => false
  | a :: as, b :: bs =>
    if a.toNat < b.toNat then true
    else if b.toNat < a.toNat then false
    else charsLe as bs

/-- Row comparison used by `sort_values("date_time")`. -/
def entLe (a b : MoodEntry) : Bool := charsLe a.date_time.data b.date_time.data

/-- Insert into a list sorted descending by `date_time`. -/
def insertDescEntry (e : MoodEntry) : List MoodEntry → List MoodEntry
  | [] => [e]
  | x :: xs => if entLe x e then e :: x :: xs else x :: insertDescEntry e xs

/-- Models `df.sort_values("date_time", ascending=False)`. -/
def sortEntriesDesc : List MoodEntry → List MoodEntry
  | [] => []
  | x :: xs => insertDescEntry x (sortEntriesDesc xs)

/-- The newline character used by `to_csv` as the line terminator. -/
def newline : Char := Char.ofNat 10

/-- One serialised CSV line of a row, in the fixed column order. -/
def entryRow (e : MoodEntry) : String :=
  e.date_time ++ "," ++ e.date ++ "," ++ e.mood ++ "," ++ e.note

/-- The header line `to_csv` writes for the mood frame. -/
def csvHeader : String := "date_time,date,mood,note"

/-- `hist.to_csv(index=False)` on the descending-sorted store: header
line, then each row on its own newline-terminated line. -/
def export_csv (entries : List MoodEntry) : String :=
  csvHeader ++ newline.toString ++
    String.join ((sortEntriesDesc entries).map fun e => entryRow e ++ newline.toString)

/-- The artifact name passed to `st.download_button` (app.py line 219). -/
def download_name : String := "mood_log.csv"

/-- Split a character list at every occurrence of `sep`. -/
def splitOnChar (sep : Char) : List Char → List (List Char)
  | [] => [[]]
  | c :: cs =>
    match splitOnChar sep cs with
    | [] => [[c]]
    | g :: gs => if c = sep then [] :: g :: gs else (c :: g) :: gs

/-- Parse one CSV line into a row; lines without exactly four fields
(such as the empty fragment after the trailing newline) yield nothing. -/
def parseRow (cs : List Char) : Option MoodEntry :=
  match splitOnChar ',' cs with
  | [a, b, c, d] => some ⟨String.mk a, String.mk b, String.mk c, String.mk d⟩
  | _ => none

/-- Models re-importing an exported stream (`pd.read_csv` on the
downloaded bytes) for frames whose fields are free of comma, quote and
newline: drop the header line, parse each remaining line. -/
def parse_csv (s : String) : List MoodEntry :=
  match splitOnChar newline s.data with
  | [] => []
  | _ :: body => body.filterMap parseRow

/-- The two rows of the export scenario: a happy entry logged
2024-01-01 and a sad entry logged 2024-01-02, in insertion order. -/
def entryJan1 : MoodEntry :=
  ⟨"2024-01-01 10:00:00", "2024-01-01", "😃 Happy", "sunny walk"⟩

/-- The later row of the export scenario. -/
def entryJan2 : MoodEntry :=
  ⟨"2024-01-02 09:30:00", "2024-01-02", "😢 Sad", "rainy day"⟩

/-- A concrete clock value, the one that produces `entryJan1`. -/
def clockJan1 : Clock := ⟨"2024-01-01 10:00:00", "2024-01-01"⟩

/-! ### Lemmas for the crisis detector -/

theorem startsWithChars_iff (n h : List Char) :
    startsWithChars n h = true ↔ n <+: h := by
  induction n generalizing h with
  | nil => simp [startsWithChars]
  | cons a as ih =>
    cases h with
    | nil => simp [startsWithChars]
    | cons b bs =>
      simp [startsWithChars, List.cons_prefix_cons, ih]

theorem hasSubstr_iff (n h : List Char) :
    hasSubstr n h = true ↔ n <:+: h := by
  induction h with
  | nil => simp [hasSubstr, startsWithChars_iff]
  | cons c rest ih =>
    simp [hasSubstr, startsWithChars_iff, ih, List.infix_cons_iff]

/-- C1: `is_crisis` performs a case-insensitive substring match of the
text against the fixed hardcoded crisis phrase list: it returns `false`
for `None` and for empty input, returns `true` exactly when some phrase
of the list occurs as a substring of the lowercased input, and in
particular flags "I want to die" and does not flag "I had a great day". -/
theorem is_crisis_spec :
    is_crisis none = false ∧
    is_crisis (some "") = false ∧
    (∀ s : String, is_crisis (some s) = true ↔
      ∃ kw ∈ CRISIS_KEYWORDS, kw.data <:+: lowerData s) ∧
    is_crisis (some "I want to die") = true ∧
    is_crisis (some "I had a great day") = false := by
  refine ⟨rfl, by decide, ?_, by decide, by decide⟩
  intro s
  by_cases hs : s = ""
  · subst hs
    simp only [is_crisis, if_pos rfl]
    constructor
    · intro h; exact absurd h (by decide)
    · intro h
      exfalso
      revert h
      decide
  · simp [is_crisis, hs, List.any_eq_true, hasSubstr_iff]

/-- C2: the chat handler evaluates crisis classification before any
response generation; whenever `is_crisis` is true it renders the crisis
alert with the India helplines and the language model is never invoked,
whatever function (including any failing behaviour) the language model
collaborator happens to be. -/
theorem chat_crisis_precedence :
    ∀ (g : String → String) (t : String), is_crisis (some t) = true →
      chat_handler g t = (ChatOutput.crisisAlert HELPLINES_India, false) ∧
      ∀ g₂ : String → String, chat_handler g t = chat_handler g₂ t := by
  intro g t h
  refine ⟨by simp [chat_handler, h], fun g₂ => by simp [chat_handler, h]⟩

/-- Witness for C2 at the crisis input "I want to die" and a concrete
collaborator that models a failed API call. -/
theorem chat_crisis_precedence_witness :
    is_crisis (some "I want to die") = true ∧
    chat_handler (fun _ => "api failure") "I want to die" =
      (ChatOutput.crisisAlert HELPLINES_India, false) :=
  ⟨by decide,
   (chat_crisis_precedence (fun _ => "api failure") "I want to die" (by decide)).1⟩

/-! ### Lemmas and theorems for the mood store -/

theorem runAppends_some (reqs : List (Clock × String × String)) (df : List MoodEntry) :
    runAppends reqs (some df) =
      some (df ++ reqs.map fun r => mkEntry r.1 r.2.1 r.2.2) := by
  induction reqs generalizing df with
  | nil => simp [runAppends]
  | cons r rest ih =>
    obtain ⟨c, m, n⟩ := r
    simp [runAppends, save_mood, ih]

/-- C5: starting from no storage, after any sequence of `save_mood`
calls a `load_moods` returns exactly one entry per call, in call
order, and each entry records the mood and note passed to its call
(timestamp and day coming from the clock sampled at write time). -/
theorem store_roundtrip :
    ∀ reqs : List (Clock × String × String),
      load_moods (runAppends reqs none) =
        (reqs.map fun r => mkEntry r.1 r.2.1 r.2.2) ∧
      (load_moods (runAppends reqs none)).length = reqs.length ∧
      ∀ c m n, (mkEntry c m n).mood = m ∧ (mkEntry c m n).note = n := by
  intro reqs
  have h : load_moods (runAppends reqs none) =
      reqs.map fun r => mkEntry r.1 r.2.1 r.2.2 := by
    cases reqs with
    | nil => rfl
    | cons r rest =>
      obtain ⟨c, m, n⟩ := r
      simp [runAppends, save_mood, runAppends_some, load_moods]
  exact ⟨h, by rw [h]; simp, fun c m n => ⟨rfl, rfl⟩⟩

/-- C7 counterexample: at a concrete call, `save_mood` does persist the
constructed entry, but the value it returns to the caller is `None`,
not the persisted entry: the Python function body has no `return`. -/
theorem save_mood_returns_none :
    (save_mood clockJan1 "😃 Happy" "sunny walk" none).2 = none ∧
    (save_mood clockJan1 "😃 Happy" "sunny walk" none).2 ≠
      some (mkEntry clockJan1 "😃 Happy" "sunny walk") ∧
    (save_mood clockJan1 "😃 Happy" "sunny walk" none).1 =
      some [mkEntry clockJan1 "😃 Happy" "sunny walk"] := by
  refine ⟨rfl, by decide, rfl⟩

/-- C7 amended: `save_mood` constructs the entry from the clock sampled
at write time together with the given mood and note, persists it by
appending (creating the storage transparently on a first append), and
returns `None` rather than the persisted entry. -/
theorem save_mood_spec :
    ∀ now mood note store,
      (save_mood now mood note store).1 =
        some (load_moods store ++ [mkEntry now mood note]) ∧
      (save_mood now mood note store).2 = none := by
  intro now mood note store
  cases store <;> simp [save_mood, load_moods]

/-- C8: the store is append-only: a `save_mood` against an existing
store keeps every previously persisted entry unchanged in its
position, grows the store by exactly one, and puts the new entry at
the end. -/
theorem store_append_only :
    ∀ now mood note df,
      (save_mood now mood note (some df)).1 =
        some (df ++ [mkEntry now mood note]) ∧
      (df ++ [mkEntry now mood note]).take df.length = df ∧
      (df ++ [mkEntry now mood note]).length = df.length + 1 ∧
      (df ++ [mkEntry now mood note]).getLast? = some (mkEntry now mood note) := by
  intro now mood note df
  exact ⟨rfl, List.take_left df _, by simp, List.getLast?_concat df⟩

/-- C6 counterexample: on a present but malformed storage file the
unguarded `pd.read_csv` inside `load_moods` raises, so `load_moods`
propagates an error instead of returning the empty sequence. -/
theorem load_moods_corrupt_raises :
    load_moods_fs FileState.corrupt = Except.error "ParserError" ∧
    load_moods_fs FileState.corrupt ≠ Except.ok ([] : List MoodEntry) :=
  ⟨rfl, fun h => by simp [load_moods_fs, read_csv] at h⟩

/-- C6 amended: `load_moods` returns all persisted entries in
insertion order and resolves a missing storage file to the empty
sequence; a present but malformed file, however, is not handled, and
the parse error of `pd.read_csv` propagates. -/
theorem load_moods_spec :
    load_moods_fs FileState.absent = Except.ok ([] : List MoodEntry) ∧
    (∀ rows, load_moods_fs (FileState.wellFormed rows) = Except.ok rows) ∧
    load_moods_fs FileState.corrupt = Except.error "ParserError" :=
  ⟨rfl, fun _ => rfl, rfl⟩

/-! ### Lemmas and theorems for the streak calculator -/

theorem mem_insertDescInt {a x : Int} {l : List Int} :
    a ∈ insertDescInt x l ↔ a = x ∨ a ∈ l := by
  induction l with
  | nil => simp [insertDescInt]
  | cons y ys ih =>
    by_cases h : y ≤ x
    · simp [insertDescInt, h]
    · simp only [insertDescInt, if_neg h, List.mem_cons, ih]
      tauto

theorem mem_sortDescInt {a : Int} {l : List Int} :
    a ∈ sortDescInt l ↔ a ∈ l := by
  induction l with
  | nil => simp [sortDescInt]
  | cons x xs ih => simp [sortDescInt, mem_insertDescInt, ih]

theorem perm_insertDescInt (a : Int) (l : List Int) :
    (insertDescInt a l).Perm (a :: l) := by
  induction l with
  | nil => rfl
  | cons x xs ih =>
    by_cases h : x ≤ a
    · simp [insertDescInt, h]
    · simp only [insertDescInt, if_neg h]
      exact List.Perm.trans (List.Perm.cons x ih) (List.Perm.swap a x xs)

theorem perm_sortDescInt (l : List Int) : (sortDescInt l).Perm l := by
  induction l with
  | nil => rfl
  | cons x xs ih =>
    exact List.Perm.trans (perm_insertDescInt x (sortDescInt xs)) (List.Perm.cons x ih)

theorem pairwise_insertDescInt {a : Int} {l : List Int}
    (hl : l.Pairwise fun x y => y ≤ x) :
    (insertDescInt a l).Pairwise fun x y => y ≤ x := by
  induction l with
  | nil => simp [insertDescInt]
  | cons x xs ih =>
    rw [List.pairwise_cons] at hl
    obtain ⟨hx, hxs⟩ := hl
    by_cases h : x ≤ a
    · simp only [insertDescInt, if_pos h]
      rw [List.pairwise_cons]
      refine ⟨?_, List.pairwise_cons.mpr ⟨hx, hxs⟩⟩
      intro b hb
      rcases List.mem_cons.mp hb with rfl | hb'
      · exact h
      · exact le_trans (hx b hb') h
    · simp only [insertDescInt, if_neg h]
      rw [List.pairwise_cons]
      refine ⟨?_, ih hxs⟩
      intro b hb
      rcases mem_insertDescInt.mp hb with rfl | hb'
      · omega
      · exact hx b hb'

theorem pairwise_sortDescInt (l : List Int) :
    (sortDescInt l).Pairwise fun x y => y ≤ x := by
  induction l with
  | nil => simp [sortDescInt]
  | cons x xs ih => exact pairwise_insertDescInt ih

theorem pairwise_lt_sortDescInt (l : List Int) (hl : l.Nodup) :
    (sortDescInt l).Pairwise fun x y => y < x := by
  have hnd : (sortDescInt l).Nodup := ((perm_sortDescInt l).nodup_iff).mpr hl
  have hp := (pairwise_sortDescInt l).and hnd
  exact hp.imp (by intro a b hab; omega)

theorem streakLoop_run (today : Int) :
    ∀ (L : List Int) (i : Nat), (L.Pairwise fun x y => y < x) →
      (∀ d ∈ L, d ≤ today - (i : Int)) →
      (∀ j : Nat, j < streakLoop today i L → (today - ((i + j : Nat) : Int)) ∈ L) ∧
      (today - ((i + streakLoop today i L : Nat) : Int)) ∉ L := by
  intro L
  induction L with
  | nil => intro i _ _; simp [streakLoop]
  | cons d rest ih =>
    intro i hpw hub
    rw [List.pairwise_cons] at hpw
    obtain ⟨hd, hrest⟩ := hpw
    by_cases hmatch : d = today - (i : Int)
    · have hub' : ∀ e ∈ rest, e ≤ today - ((i + 1 : Nat) : Int) := by
        intro e he
        have := hd e he
        omega
      obtain ⟨ihA, ihB⟩ := ih (i + 1) hrest hub'
      simp only [streakLoop, if_pos hmatch]
      constructor
      · intro j hj
        cases j with
        | zero => simp [hmatch]
        | succ j' =>
          have hj' : j' < streakLoop today (i + 1) rest := by omega
          have hmem := ihA j' hj'
          rw [List.mem_cons]
          right
          have harith : (i + (j' + 1) : Nat) = ((i + 1) + j' : Nat) := by omega
          rw [harith]
          exact hmem
      · rw [List.mem_cons]
        push_neg
        constructor
        · intro he
          rw [hmatch] at he
          have hcast : ((i : Int)) =
              ((i + (streakLoop today (i + 1) rest + 1) : Nat) : Int) := by omega
          push_cast at hcast
          omega
        · have harith : (i + (streakLoop today (i + 1) rest + 1) : Nat) =
              ((i + 1) + streakLoop today (i + 1) rest : Nat) := by omega
          rw [harith]
          exact ihB
    · simp only [streakLoop, if_neg hmatch]
      constructor
      · intro j hj; omega
      · rw [List.mem_cons]
        push_neg
        refine ⟨?_, ?_⟩
        · intro he
          apply hmatch
          rw [← he]
          simp
        · intro hmem
          have h1 := hd _ hmem
          have h2 := hub d (List.mem_cons_self d rest)
          simp only [Nat.add_zero] at h1 ⊢
          omega

theorem calculate_streak_run (days : List Int) (today : Int)
    (hle : ∀ d ∈ days, d ≤ today) :
    (∀ i : Nat, i < calculate_streak days today → (today - (i : Int)) ∈ days) ∧
    (today - ((calculate_streak days today : Nat) : Int)) ∉ days := by
  by_cases hd : days = []
  · subst hd
    simp [calculate_streak]
  · have hL : ∀ d ∈ sortDescInt days.dedup, d ≤ today - ((0 : Nat) : Int) := by
      intro d hdm
      have hdays : d ∈ days := List.mem_dedup.mp (mem_sortDescInt.mp hdm)
      have := hle d hdays
      omega
    obtain ⟨hA, hB⟩ := streakLoop_run today (sortDescInt days.dedup) 0
      (pairwise_lt_sortDescInt _ (List.nodup_dedup days)) hL
    have hstreak : calculate_streak days today =
        streakLoop today 0 (sortDescInt days.dedup) := by
      simp [calculate_streak, hd]
    constructor
    · intro i hi
      rw [hstreak] at hi
      have hmem := hA i hi
      have harith : ((0 + i : Nat) : Int) = (i : Int) := by omega
      rw [harith] at hmem
      exact List.mem_dedup.mp (mem_sortDescInt.mp hmem)
    · rw [hstreak]
      intro hmem
      apply hB
      have harith : ((0 + streakLoop today 0 (sortDescInt days.dedup) : Nat) : Int) =
          ((streakLoop today 0 (sortDescInt days.dedup) : Nat) : Int) := by omega
      rw [harith]
      exact mem_sortDescInt.mpr (List.mem_dedup.mpr hmem)

/-- C3: `calculate_streak` counts, over the distinct day values of the
entries, the run of consecutive calendar days ending at today that all
carry an entry: empty input gives 0, a missing today gives 0 whatever
the history, a duplicated day counts once, exactly today, yesterday
and the day before give 3, and in general (whenever no stored day lies
in the future, as holds for days stamped by `date.today()` at write
time) every day of the run `today, today - 1, ...` of length the
returned streak has an entry while the day just before the run has
none. -/
theorem calculate_streak_spec :
    (∀ today, calculate_streak [] today = 0) ∧
    (∀ days today, today ∉ days → calculate_streak days today = 0) ∧
    (∀ d days today, d ∈ days →
      calculate_streak (d :: days) today = calculate_streak days today) ∧
    (∀ today, calculate_streak [today, today - 1, today - 2] today = 3) ∧
    (∀ days today, (∀ d ∈ days, d ≤ today) →
      (∀ i : Nat, i < calculate_streak days today → (today - (i : Int)) ∈ days) ∧
      (today - ((calculate_streak days today : Nat) : Int)) ∉ days) := by
  refine ⟨fun today => rfl, ?_, ?_, ?_, calculate_streak_run⟩
  · intro days today h
    by_cases hd : days = []
    · simp [calculate_streak, hd]
    · simp only [calculate_streak, if_neg hd]
      cases hsort : sortDescInt days.dedup with
      | nil => rfl
      | cons d rest =>
        have hdmem : d ∈ days := by
          have hmem : d ∈ sortDescInt days.dedup := by
            rw [hsort]; exact List.mem_cons_self d rest
          exact List.mem_dedup.mp (mem_sortDescInt.mp hmem)
        have hne : ¬ d = today - ((0 : Nat) : Int) := by
          intro he
          apply h
          have hd' : d = today := by simpa using he
          rwa [hd'] at hdmem
        simp only [streakLoop, if_neg hne]
  · intro d days today hmem
    have hne : days ≠ [] := List.ne_nil_of_mem hmem
    simp only [calculate_streak, if_neg hne, if_neg (List.cons_ne_nil d days),
      List.dedup_cons_of_mem hmem]
  · intro t
    have h1 : ([t, t - 1, t - 2] : List Int).dedup = [t, t - 1, t - 2] := by
      rw [List.dedup_cons_of_not_mem (by simp; try omega),
        List.dedup_cons_of_not_mem (by simp; try omega),
        List.dedup_cons_of_not_mem (List.not_mem_nil _), List.dedup_nil]
    have h2 : sortDescInt [t, t - 1, t - 2] = [t, t - 1, t - 2] := by
      simp only [sortDescInt]
      rw [show insertDescInt (t - 2) [] = [t - 2] from rfl]
      rw [show insertDescInt (t - 1) [t - 2] = [t - 1, t - 2] by
        simp only [insertDescInt]; rw [if_pos (by omega)]]
      rw [show insertDescInt t [t - 1, t - 2] = [t, t - 1, t - 2] by
        simp only [insertDescInt]; rw [if_pos (by omega)]]
    simp only [calculate_streak, if_neg (List.cons_ne_nil t [t - 1, t - 2]), h1, h2]
    simp only [streakLoop]
    rw [if_pos (by omega), if_pos (by omega), if_pos (by omega)]

/-- Witness for C3 at concrete day numbers: 9 is absent from {3, 5}, the
duplicated day 5 does not change the streak, and the three consecutive
days 0, -1, -2 ending at today 0 give a streak of 3. -/
theorem calculate_streak_spec_witness :
    calculate_streak [3, 5] 9 = 0 ∧
    calculate_streak [5, 5, 3] 9 = calculate_streak [5, 3] 9 ∧
    calculate_streak [0, -1, -2] 0 = 3 ∧
    ((5 : Int) - ((calculate_streak [5, 4] 5 : Nat) : Int)) ∉ ([5, 4] : List Int) :=
  ⟨calculate_streak_spec.2.1 [3, 5] 9 (by decide),
   calculate_streak_spec.2.2.1 5 [5, 3] 9 (by decide),
   calculate_streak_spec.2.2.2.1 0,
   (calculate_streak_spec.2.2.2.2 [5, 4] 5 (by decide)).2⟩

/-! ### Lemmas and theorems for the wellness scorer -/

theorem wellness_score_eq_clamp (moods : List String) :
    wellness_score moods = max 0 (min 100 ((moods.map moodDelta).sum + 50)) := by
  cases moods with
  | nil => norm_num [wellness_score]
  | cons m ms => simp [wellness_score]

/-- C4: `wellness_score` is the clamp to [0, 100] of 50 plus the sum of
the fixed per-label deltas over all provided entries (+2 for the happy
label, -1 for sad, anxious and stressed, -2 for angry), the component
performing no date windowing of its own; hence for every mood sequence
the result lies in [0, 100]. -/
theorem wellness_score_spec :
    (∀ moods, wellness_score moods =
      max 0 (min 100 ((moods.map moodDelta).sum + 50))) ∧
    moodDelta "😃 Happy" = 2 ∧ moodDelta "😢 Sad" = -1 ∧
    moodDelta "😰 Anxious" = -1 ∧ moodDelta "😡 Angry" = -2 ∧
    moodDelta "😓 Stressed" = -1 ∧
    ∀ moods, 0 ≤ wellness_score moods ∧ wellness_score moods ≤ 100 := by
  refine ⟨wellness_score_eq_clamp, by decide, by decide, by decide, by decide,
    by decide, fun moods => ?_⟩
  rw [wellness_score_eq_clamp moods]
  exact ⟨le_max_left 0 _, max_le (by norm_num) (min_le_left 100 _)⟩

/-- C10: a mood label outside the five-entry score dictionary
contributes exactly 0 to the wellness score (the NaN cell after `.map`
is skipped by `.sum()`, neither an error nor a default penalty), so a
sequence made only of unrecognized labels scores the baseline 50. -/
theorem wellness_score_unmapped :
    (∀ m, score_map m = none → moodDelta m = 0) ∧
    (∀ pre post m, score_map m = none →
      wellness_score (pre ++ m :: post) = wellness_score (pre ++ post)) ∧
    ∀ moods, (∀ m ∈ moods, score_map m = none) → wellness_score moods = 50 := by
  refine ⟨fun m hm => by simp [moodDelta, hm], ?_, ?_⟩
  · intro pre post m hm
    rw [wellness_score_eq_clamp, wellness_score_eq_clamp]
    have hdelta : moodDelta m = 0 := by simp [moodDelta, hm]
    simp [hdelta]
  · intro moods h
    rw [wellness_score_eq_clamp]
    have hsum : (moods.map moodDelta).sum = 0 := by
      apply List.sum_eq_zero
      intro x hx
      obtain ⟨m, hm, rfl⟩ := List.mem_map.mp hx
      simp [moodDelta, h m hm]
    rw [hsum]
    norm_num

/-- Witness for C10 at labels the dictionary does not know: the plain
word labels are skipped next to a mapped happy label, and a sequence
of only unmapped labels scores 50. -/
theorem wellness_score_unmapped_witness :
    moodDelta "Tired" = 0 ∧
    wellness_score ["Tired", "😃 Happy"] = wellness_score ["😃 Happy"] ∧
    wellness_score ["Tired", "Confused"] = 50 :=
  ⟨wellness_score_unmapped.1 "Tired" (by decide),
   wellness_score_unmapped.2.1 [] ["😃 Happy"] "Tired" (by decide),
   wellness_score_unmapped.2.2 ["Tired", "Confused"] (by decide)⟩

/-! ### Lemmas and theorems for the Insights export -/

theorem charsLe_total (a : List Char) :
    ∀ b : List Char, charsLe a b = true ∨ charsLe b a = true := by
  induction a with
  | nil => intro b; left; cases b <;> rfl
  | cons x xs ih =>
    intro b
    cases b with
    | nil => right; rfl
    | cons y ys =>
      simp only [charsLe]
      rcases Nat.lt_trichotomy x.toNat y.toNat with h | h | h
      · left; rw [if_pos h]
      · have h1 : ¬ x.toNat < y.toNat := by omega
        have h2 : ¬ y.toNat < x.toNat := by omega
        rw [if_neg h1, if_neg h2, if_neg h2, if_neg h1]
        exact ih ys
      · right; rw [if_pos h]

theorem charsLe_trans {a : List Char} : ∀ {b c : List Char},
    charsLe a b = true → charsLe b c = true → charsLe a c = true := by
  induction a with
  | nil => intro b c _ _; cases c <;> rfl
  | cons x xs ih =>
    intro b c hab hbc
    cases b with
    | nil => simp [charsLe] at hab
    | cons y ys =>
      cases c with
      | nil => simp [charsLe] at hbc
      | cons z zs =>
        simp only [charsLe] at hab hbc ⊢
        rcases Nat.lt_trichotomy x.toNat y.toNat with h1 | h1 | h1
        · rw [if_pos h1] at hab
          rcases Nat.lt_trichotomy y.toNat z.toNat with h2 | h2 | h2
          · rw [if_pos (by omega : x.toNat < z.toNat)]
          · rw [if_pos (by omega : x.toNat < z.toNat)]
          · rw [if_neg (by omega : ¬ y.toNat < z.toNat), if_pos h2] at hbc
            exact absurd hbc (by simp)
        · rcases Nat.lt_trichotomy y.toNat z.toNat with h2 | h2 | h2
          · rw [if_pos (by omega : x.toNat < z.toNat)]
          · rw [if_neg (by omega : ¬ x.toNat < z.toNat),
              if_neg (by omega : ¬ z.toNat < x.toNat)]
            rw [if_neg (by omega : ¬ x.toNat < y.toNat),
              if_neg (by omega : ¬ y.toNat < x.toNat)] at hab
            rw [if_neg (by omega : ¬ y.toNat < z.toNat),
              if_neg (by omega : ¬ z.toNat < y.toNat)] at hbc
            exact ih hab hbc
          · rw [if_neg (by omega : ¬ y.toNat < z.toNat), if_pos h2] at hbc
            exact absurd hbc (by simp)
        · rw [if_neg (by omega : ¬ x.toNat < y.toNat), if_pos h1] at hab
          exact absurd hab (by simp)

theorem entLe_total (a b : MoodEntry) : entLe a b = true ∨ entLe b a = true :=
  charsLe_total _ _

theorem entLe_trans {a b c : MoodEntry} (hab : entLe a b = true)
    (hbc : entLe b c = true) : entLe a c = true :=
  charsLe_trans hab hbc

theorem mem_insertDescEntry {a e : MoodEntry} {l : List MoodEntry} :
    a ∈ insertDescEntry e l ↔ a = e ∨ a ∈ l := by
  induction l with
  | nil => simp [insertDescEntry]
  | cons x xs ih =>
    by_cases h : entLe x e = true
    · simp [insertDescEntry, h]
    · simp only [insertDescEntry, if_neg h, List.mem_cons, ih]
      tauto

theorem perm_insertDescEntry (e : MoodEntry) (l : List MoodEntry) :
    (insertDescEntry e l).Perm (e :: l) := by
  induction l with
  | nil => rfl
  | cons x xs ih =>
    by_cases h : entLe x e = true
    · simp [insertDescEntry, h]
    · simp only [insertDescEntry, if_neg h]
      exact List.Perm.trans (List.Perm.cons x ih) (List.Perm.swap e x xs)

theorem perm_sortEntriesDesc (l : List MoodEntry) : (sortEntriesDesc l).Perm l := by
  induction l with
  | nil => rfl
  | cons x xs ih =>
    exact List.Perm.trans (perm_insertDescEntry x (sortEntriesDesc xs))
      (List.Perm.cons x ih)

theorem pairwise_insertDescEntry {e : MoodEntry} {l : List MoodEntry}
    (hl : l.Pairwise fun a b => entLe b a = true) :
    (insertDescEntry e l).Pairwise fun a b => entLe b a = true := by
  induction l with
  | nil => simp [insertDescEntry]
  | cons x xs ih =>
    rw [List.pairwise_cons] at hl
    obtain ⟨hx, hxs⟩ := hl
    by_cases h : entLe x e = true
    · simp only [insertDescEntry, if_pos h]
      rw [List.pairwise_cons]
      refine ⟨?_, List.pairwise_cons.mpr ⟨hx, hxs⟩⟩
      intro b hb
      rcases List.mem_cons.mp hb with rfl | hb'
      · exact h
      · exact entLe_trans (hx b hb') h
    · simp only [insertDescEntry, if_neg h]
      rw [List.pairwise_cons]
      refine ⟨?_, ih hxs⟩
      intro b hb
      rcases mem_insertDescEntry.mp hb with rfl | hb'
      · rcases entLe_total b x with h' | h'
        · exact h'
        · exact absurd h' h
      · exact hx b hb'

theorem pairwise_sortEntriesDesc (l : List MoodEntry) :
    (sortEntriesDesc l).Pairwise fun a b => entLe b a = true := by
  induction l with
  | nil => simp [sortEntriesDesc]
  | cons x xs ih => exact pairwise_insertDescEntry ih

/-- C9: the Insights export serialises the full store sorted by
`date_time` descending (the sort is a permutation of the store that is
pairwise descending) in the same tabular format, offered as a download
named `mood_log.csv`; in the two-entry scenario the 2024-01-02 row
comes before the 2024-01-01 row in the exported stream, and re-importing
that stream reproduces both entries unchanged. -/
theorem export_sorted_roundtrip :
    download_name = "mood_log.csv" ∧
    (∀ entries, (sortEntriesDesc entries).Perm entries) ∧
    (∀ entries, (sortEntriesDesc entries).Pairwise fun a b => entLe b a = true) ∧
    sortEntriesDesc [entryJan1, entryJan2] = [entryJan2, entryJan1] ∧
    export_csv [entryJan1, entryJan2] =
      csvHeader ++ newline.toString ++ entryRow entryJan2 ++ newline.toString ++
        entryRow entryJan1 ++ newline.toString ∧
    parse_csv (export_csv [entryJan1, entryJan2]) = [entryJan2, entryJan1] := by
  refine ⟨rfl, perm_sortEntriesDesc, pairwise_sortEntriesDesc,
    by decide, by decide, by decide⟩
